import Mathlib

/-!
Shallow embedding of the module reloader (src/reloader.py) in Lean 4.

Modelling conventions:
* A live module is identified by its stable dotted name (a String); the host
  registry maps each name to a unique module object, so names serve as object
  identity.  Non-module Python values appearing as module attributes are
  modelled by the PyVal.obj constructor and carry no attributes of their own.
* The host's native resolution primitive and its native reload primitive are
  external collaborators (spec section 1); the former is an opaque function in
  the World record, the latter is an observable trace event (REvent.reloadPrim)
  together with a World flag saying whether it raises for a given module.
* Python dicts are association lists with unique keys; deepcopy of a dict of
  pure modelled values is the identity, so deepcopying after removing the
  builtins entry is modelled by removing that entry.
* The recursive routine of the reload engine is derecursed with a fuel
  parameter (reloadAux); reloadStep is the line-by-line body of one call of
  the Python function.  Exhausted fuel yields none, a model artefact with no
  Python counterpart; fuel monotonicity is proved below so that termination
  statements are fuel-stable.
* Exceptions are modelled with Except / an error component in the result; the
  Python source has no try/finally around the base-import call or the reload
  step, so on those error paths the global context fields deliberately keep
  whatever values they had at raise time, exactly as the source does.
-/

namespace Reloader

/-- Association-list lookup, modelling Python dict.get. -/
def lookupK {α : Type} (k : String) : List (String × α) → Option α
  | [] => none
  | p :: rest => if p.1 = k then some p.2 else lookupK k rest

/-- Association-list key removal, modelling Python del d of a key (dict keys
are unique, so removing the first hit suffices). -/
def eraseKey {α : Type} (k : String) : List (String × α) → List (String × α)
  | [] => []
  | p :: rest => if p.1 = k then rest else p :: eraseKey k rest

/-- Association-list update, modelling Python dict assignment d of k to v. -/
def setEntry {α : Type} (k : String) (v : α) : List (String × α) → List (String × α)
  | [] => [(k, v)]
  | p :: rest => if p.1 = k then (k, v) :: rest else p :: setEntry k v rest

/-- A module's attribute dictionary (vars of the module), keys to modelled
pure values. -/
abbrev ModDict := List (String × String)

/-- The dependency graph: parent module name mapped to the ordered list of
dependency module names (reloader.py, global variable at line 41). -/
abbrev Graph := List (String × List String)

/-- A Python value as seen by the interceptor: a module (identified by its
dotted name) or a non-module object. -/
inductive PyVal : Type
  | module (name : String)
  | obj (tag : String)
deriving DecidableEq

/-- Reading the dunder name attribute of a value: modules carry their name,
plain objects raise AttributeError (modelled as none). -/
def pyName : PyVal → Option String
  | PyVal.module n => some n
  | PyVal.obj _ => none

/-- Observable events of the reload engine: an invocation of the host reload
primitive, and an invocation of a module's state-migration hook with the
snapshot it receives. -/
inductive REvent : Type
  | reloadPrim (name : String)
  | hookCall (name : String) (snapshot : ModDict)
deriving DecidableEq

/-- Errors escaping the reload engine. -/
inductive RErr : Type
  | reloadError (name : String)
  | hookError (name : String)
  | keyError
deriving DecidableEq

/-- Errors escaping the interceptor. -/
inductive ImpErr : Type
  | importError
  | attributeError
  | keyError
deriving DecidableEq

instance exceptDecidableEq {ε α : Type} [DecidableEq ε] [DecidableEq α] :
    DecidableEq (Except ε α) := fun a b =>
  match a, b with
  | Except.error e, Except.error e' =>
    if h : e = e' then isTrue (congrArg Except.error h)
    else isFalse (fun hh => h (Except.error.inj hh))
  | Except.ok v, Except.ok v' =>
    if h : v = v' then isTrue (congrArg Except.ok h)
    else isFalse (fun hh => h (Except.ok.inj hh))
  | Except.error _, Except.ok _ => isFalse (fun hh => Except.noConfusion hh)
  | Except.ok _, Except.error _ => isFalse (fun hh => Except.noConfusion hh)

/-- Splitting a list of characters at every separator occurrence, keeping
empty segments, as Python str.split with an explicit separator does. -/
def splitCharAux (c : Char) : List Char → List Char → List (List Char)
  | [], acc => [acc.reverse]
  | x :: xs, acc =>
    if x = c then acc.reverse :: splitCharAux c xs []
    else splitCharAux c xs (x :: acc)

/-- Model of the Python expression splitting a dotted name on the dot
character (reloader.py line 185). -/
def splitDotted (s : String) : List String :=
  (splitCharAux '.' s.data []).map (fun cs => String.mk cs)

/-- The external world: the host's base import primitive (as a function of
the dotted name and the from-list), module attributes, the registry key set,
per-module facts (file-backed, hook presence, attribute dict) and whether the
host reload primitive or the hook raises for a given module. -/
structure World : Type where
  baseimport : String → Option (List String) → Except ImpErr (Option PyVal)
  modAttrs : String → String → Option PyVal
  sysHas : String → Bool
  hasFile : String → Bool
  hasHook : String → Bool
  dict : String → ModDict
  reloadFails : String → Bool
  hookFails : String → Bool

/-- getattr on a modelled value: module attributes come from the world,
non-module objects expose no attributes in the model. -/
def pyGetattr (w : World) : PyVal → String → Option PyVal
  | PyVal.module n, a => w.modAttrs n a
  | PyVal.obj _, _ => none

/-- hasattr of the file attribute (reloader.py line 213): only file-backed
modules qualify. -/
def pyHasFile (w : World) : PyVal → Bool
  | PyVal.module n => w.hasFile n
  | PyVal.obj _ => false

/-- Truthiness test of reloader.py line 98: the blacklist is consulted only
when it is not None and non-empty, and then by name membership. -/
def blacklistHit (bl : Option (List String)) (name : String) : Bool :=
  match bl with
  | none => false
  | some l => !l.isEmpty && l.contains name

/-- Model of the helper at reloader.py lines 79-89: shallow-copy the module
dictionary, delete the builtins entry (del raises KeyError when the key is
absent), then deep-copy; deepcopy of pure modelled values is the identity. -/
def deepcopyModuleDict (d : ModDict) : Except RErr ModDict :=
  if (lookupK "__builtins__" d).isSome then Except.ok (eraseKey "__builtins__" d)
  else Except.error RErr.keyError

/-- Mutable state threaded through one reload invocation: the dependency
graph, the reload parent marker, the per-invocation visited set, and the
observable event trace. -/
structure RSt : Type where
  deps : Graph
  parent : Option String
  visited : List String
  trace : List REvent
deriving DecidableEq

/-- Adding the current module to the visited set (reloader.py line 104). -/
def visitedAdd (name : String) (st : RSt) : RSt :=
  { st with visited := st.visited.insert name }

/-- Lines 122-150 of reloader.py: delete the module's graph entry (KeyError
ignored), set the reload parent marker, then run the host reload primitive,
with the state-migration hook wrapped around it when present.  On success the
marker is reset to None; when the primitive or the hook raises, the source has
no try/finally, so the marker keeps the module's name. -/
def reloadFinish (w : World) (name : String) (st2 : RSt) : Option (RSt × Option RErr) :=
  let st3 : RSt := { st2 with deps := eraseKey name st2.deps, parent := some name }
  if w.hasHook name then
    match deepcopyModuleDict (w.dict name) with
    | Except.error e => some (st3, some e)
    | Except.ok d =>
      let st4 : RSt := { st3 with trace := st3.trace ++ [REvent.reloadPrim name] }
      if w.reloadFails name then some (st4, some (RErr.reloadError name))
      else
        let st5 : RSt := { st4 with trace := st4.trace ++ [REvent.hookCall name d] }
        if w.hookFails name then some (st5, some (RErr.hookError name))
        else some ({ st5 with parent := none }, none)
  else
    let st4 : RSt := { st3 with trace := st3.trace ++ [REvent.reloadPrim name] }
    if w.reloadFails name then some (st4, some (RErr.reloadError name))
    else some ({ st4 with parent := none }, none)

/-- Skip condition of reloader.py line 114: a scope predicate is supplied and
rejects the dependency. -/
def scopeSkips (scope : Option (String → Bool)) (d : String) : Bool :=
  match scope with
  | some s => !(s d)
  | none => false

/-- The dependency loop of reloader.py lines 110-120, over the reversed
dependency list, threading the shared state; rec is the recursive call at one
less fuel.  An exception aborts the loop and propagates. -/
def reloadDeps (scope : Option (String → Bool))
    (rec : String → RSt → Option (RSt × Option RErr)) :
    List String → RSt → Option (RSt × Option RErr)
  | [], st => some (st, none)
  | d :: rest, st =>
    if d ∈ st.visited then reloadDeps scope rec rest st
    else if scopeSkips scope d then reloadDeps scope rec rest st
    else
      match rec d st with
      | none => none
      | some (st', some e) => some (st', some e)
      | some (st', none) => reloadDeps scope rec rest st'

/-- One call of the internal routine of reloader.py lines 91-150: blacklist
early return, visited-set insertion, recursive reload of the reversed
dependency list, then the finishing step. -/
def reloadStep (bl : Option (List String)) (w : World) (scope : Option (String → Bool))
    (rec : String → RSt → Option (RSt × Option RErr)) (name : String) (st : RSt) :
    Option (RSt × Option RErr) :=
  if blacklistHit bl name then some (st, none)
  else
    match lookupK name (visitedAdd name st).deps with
    | none => reloadFinish w name (visitedAdd name st)
    | some ds =>
      match reloadDeps scope rec ds.reverse (visitedAdd name st) with
      | none => none
      | some (st2, some e) => some (st2, some e)
      | some (st2, none) => reloadFinish w name st2

/-- Fuel-indexed derecursion of the internal reload routine. -/
def reloadAux (bl : Option (List String)) (w : World) (scope : Option (String → Bool)) :
    Nat → String → RSt → Option (RSt × Option RErr)
  | 0 => fun _ _ => none
  | fuel + 1 => reloadStep bl w scope (reloadAux bl w scope fuel)

/-- Public reload of reloader.py lines 152-159: run the internal routine with
a fresh empty visited set on the current graph and parent marker. -/
def reload (bl : Option (List String)) (w : World) (scope : Option (String → Bool))
    (fuel : Nat) (name : String) (g : Graph) (parent : Option String) :
    Option (RSt × Option RErr) :=
  reloadAux bl w scope fuel name { deps := g, parent := parent, visited := [], trace := [] }

/-- Mutable interceptor state: the dependency graph and the two import
context globals (reloader.py lines 41-43). -/
structure ImpSt : Type where
  deps : Graph
  parent : Option String
  parentFromList : Option (List String)
deriving DecidableEq

/-- Component walk of reloader.py lines 184-189: resolve each successive
dotted component as an attribute, falling back to a registry lookup of the
fully qualified name; a missing registry entry raises KeyError, and reading
the name attribute of a non-module raises AttributeError. -/
def walkComponents (w : World) : List String → PyVal → Except ImpErr PyVal
  | [], m => Except.ok m
  | c :: rest, m =>
    match pyGetattr w m c with
    | some v => walkComponents w rest v
    | none =>
      match pyName m with
      | none => Except.error ImpErr.attributeError
      | some n =>
        if w.sysHas (n ++ "." ++ c) then walkComponents w rest (PyVal.module (n ++ "." ++ c))
        else Except.error ImpErr.keyError

/-- From-list scan of reloader.py lines 197-209: for each requested name, a
missing attribute is looked up in the registry under the qualified name;
results that are modules and not already recorded as dependencies of the
resolved module are collected.  Exceptions are surfaced, not swallowed. -/
def collectSubs (w : World) (g : Graph) (m : PyVal) : List String → Except ImpErr (List String)
  | [] => Except.ok []
  | f :: rest =>
    match
      (match pyGetattr w m f with
       | some v => Except.ok (some v)
       | none =>
         match pyName m with
         | none => Except.error ImpErr.attributeError
         | some mn =>
           if w.sysHas (mn ++ "." ++ f) then Except.ok (some (PyVal.module (mn ++ "." ++ f)))
           else Except.ok (none : Option PyVal)) with
    | Except.error e => Except.error e
    | Except.ok sub =>
      let here : List String :=
        match sub, pyName m with
        | some (PyVal.module sn), some mn =>
          if sn ∈ (lookupK mn g).getD [] then [] else [sn]
        | _, _ => []
      match collectSubs w g m rest with
      | Except.error e => Except.error e
      | Except.ok tail => Except.ok (here ++ tail)

/-- Resolution step of reloader.py lines 174-209: with no from-list, walk the
dotted components of the imported name starting from the returned top-level
package; with a non-wildcard from-list, keep the base module and collect the
requested submodules. -/
def resolveImported (w : World) (g : Graph) (name : String) (fromlist : Option (List String))
    (base : PyVal) : Except ImpErr (PyVal × List String) :=
  match fromlist with
  | none =>
    Except.map (fun m => (m, ([] : List String)))
      (walkComponents w ((splitDotted name).drop 1) base)
  | some fl =>
    if fl = ["*"] then Except.ok (base, [])
    else Except.map (fun subs => (base, subs)) (collectSubs w g base fl)

/-- Truthiness of the saved from-list (reloader.py line 216). -/
def flTruthy : Option (List String) → Bool
  | none => false
  | some l => !l.isEmpty

/-- Parent attribution of reloader.py lines 215-223: default to the saved
parent; when the calling namespace's own name is a direct child of that
parent and is itself among the names of the parent's enclosing from-list,
attribute to the calling namespace instead. -/
def actualParentName (w : World) (globalsName : Option (Option String)) (parent : String)
    (pfl : Option (List String)) : String :=
  if globalsName.isSome && (decide (0 < parent.length)) && flTruthy pfl then
    match globalsName with
    | some (some cm) =>
      if w.sysHas cm then
        if cm.startsWith (parent ++ ".") then
          if cm.drop (parent ++ ".").length ∈ pfl.getD [] then cm else parent
        else parent
      else parent
    | _ => parent
  else parent

/-- Edge recording of reloader.py lines 240-244: fetch or create the parent's
list, then append the module and each extra submodule that is absent from the
growing list. -/
def addDependency (parent : String) (mod : String) (modSubs : List String) (g : Graph) : Graph :=
  let l0 := (lookupK parent g).getD []
  let l1 := List.foldl (fun l x => if x ∈ l then l else l ++ [x]) l0 (mod :: modSubs)
  setEntry parent l1 g

/-- Attribution and recording of reloader.py lines 211-232: only a resolved
module carrying a file attribute is recorded; with a saved parent the edge
goes to the attributed parent.  In the deferred-import branch the source
computes the caller module with a truthiness chain, so an empty caller name
short-circuits to the empty string itself, which is not None: the edge is
then recorded under the empty parent key without a registry lookup, while a
non-empty caller name is looked up in the registry and skipped when absent. -/
def recordEdge (w : World) (globalsName : Option (Option String)) (savedP : Option String)
    (savedFL : Option (List String)) (m : PyVal) (msub : List String) (g : Graph) : Graph :=
  if pyHasFile w m then
    match pyName m with
    | none => g
    | some mn =>
      match savedP with
      | some parent => addDependency (actualParentName w globalsName parent savedFL) mn msub g
      | none =>
        match globalsName with
        | some (some cm) =>
          if cm.isEmpty then addDependency cm mn msub g
          else if w.sysHas cm then addDependency cm mn msub g
          else g
        | _ => g
  else g

/-- The interceptor of reloader.py lines 161-238.  The import context is set
to this call's name and from-list, the base primitive runs, the resolved
modules are computed and recorded, and the outer context is restored on the
success path.  The source has no try/finally, so on every raising path the
context keeps the current call's values, exactly as the Python code does. -/
def importCall (w : World) (name : String) (globalsName : Option (Option String))
    (fromlist : Option (List String)) (st : ImpSt) : ImpSt × Except ImpErr (Option PyVal) :=
  let savedP := st.parent
  let savedFL := st.parentFromList
  let st1 : ImpSt := { st with parent := some name, parentFromList := fromlist }
  match w.baseimport name fromlist with
  | Except.error e => (st1, Except.error e)
  | Except.ok none => ({ st1 with parent := savedP, parentFromList := savedFL }, Except.ok none)
  | Except.ok (some base) =>
    match resolveImported w st1.deps name fromlist base with
    | Except.error e => (st1, Except.error e)
    | Except.ok (m, msub) =>
      let g2 := recordEdge w globalsName savedP savedFL m msub st1.deps
      ({ deps := g2, parent := savedP, parentFromList := savedFL }, Except.ok (some base))

/-- The process-wide state of the system: graph, the two import context
globals, the blacklist, and whether the interceptor is installed. -/
structure Sys : Type where
  deps : Graph
  parent : Option String
  parentFromList : Option (List String)
  blacklist : Option (List String)
  intercepted : Bool
deriving DecidableEq

/-- Initial state at module load (reloader.py lines 39-43). -/
def initSys : Sys :=
  { deps := [], parent := none, parentFromList := none, blacklist := none, intercepted := false }

/-- enable of reloader.py lines 52-64: install the interceptor and replace
the blacklist only when one is supplied. -/
def enable (bl : Option (List String)) (s : Sys) : Sys :=
  { s with
    intercepted := true
    blacklist := match bl with | some b => some b | none => s.blacklist }

/-- disable of reloader.py lines 66-72: restore the base import entry point,
reset the blacklist, clear the whole graph and reset the parent marker.  The
saved from-list global is not touched by the source. -/
def disable (s : Sys) : Sys :=
  { s with intercepted := false, blacklist := none, deps := [], parent := none }

/-- get_dependencies of reloader.py lines 74-77, on a module name: the
recorded list, or none as the unknown sentinel. -/
def get_dependencies (s : Sys) (name : String) : Option (List String) :=
  lookupK name s.deps

/-- One observable operation against the system. -/
inductive SysOp : Type
  | impOp (name : String) (globalsName : Option (Option String)) (fromlist : Option (List String))
  | relOp (scope : Option (String → Bool)) (fuel : Nat) (name : String)
  | enableOp (bl : Option (List String))
  | disableOp

/-- Run one operation: an intercepted import goes through the interceptor, a
reload runs the engine against the current blacklist with a fresh visited
set, enable and disable act as in the source.  Exhausted reload fuel (a model
artefact) leaves the state unchanged. -/
def runOp (w : World) (s : Sys) : SysOp → Sys
  | SysOp.impOp name g fl =>
    if s.intercepted then
      let r := importCall w name g fl
        { deps := s.deps, parent := s.parent, parentFromList := s.parentFromList }
      { s with deps := r.1.deps, parent := r.1.parent, parentFromList := r.1.parentFromList }
    else s
  | SysOp.relOp scope fuel name =>
    match reloadAux s.blacklist w scope fuel name
        { deps := s.deps, parent := s.parent, visited := [], trace := [] } with
    | some r => { s with deps := r.1.deps, parent := r.1.parent }
    | none => s
  | SysOp.enableOp b => enable b s
  | SysOp.disableOp => disable s

/-- Run a sequence of operations from a starting state. -/
def runOps (w : World) (s : Sys) : List SysOp → Sys
  | [] => s
  | op :: rest => runOps w (runOp w s op) rest

/-- The graph invariant of the data model: every recorded dependency list is
free of duplicates. -/
def graphNodup (g : Graph) : Prop := ∀ p ∈ g, p.2.Nodup

/-- Keys of an association list are pairwise distinct (Python dict keys). -/
def keysNodup {α : Type} (g : List (String × α)) : Prop := (g.map Prod.fst).Nodup

/-- First-occurrence deduplication: the subsequence of a list keeping each
element's first occurrence, via the same append-if-absent fold the edge
recorder uses. -/
def firstOcc (xs : List String) : List String :=
  List.foldl (fun l x => if x ∈ l then l else l ++ [x]) [] xs

/-- The attribution decision of recordEdge, without the graph update: the
parent key, module and extra submodules passed to the edge recorder, or none
when no edge is recorded. -/
def recordedCall (w : World) (globalsName : Option (Option String)) (savedP : Option String)
    (savedFL : Option (List String)) (m : PyVal) (msub : List String) :
    Option (String × String × List String) :=
  if pyHasFile w m then
    match pyName m with
    | none => none
    | some mn =>
      match savedP with
      | some parent => some (actualParentName w globalsName parent savedFL, mn, msub)
      | none =>
        match globalsName with
        | some (some cm) =>
          if cm.isEmpty then some (cm, mn, msub)
          else if w.sysHas cm then some (cm, mn, msub)
          else none
        | _ => none
  else none

/-- The edge-recording call performed by one interceptor invocation: the
parent key and the modules appended for it, or none when the import fails,
resolves to nothing, or records no edge. -/
def importRecorded (w : World) (name : String) (globalsName : Option (Option String))
    (fromlist : Option (List String)) (st : ImpSt) : Option (String × String × List String) :=
  let st1 : ImpSt := { st with parent := some name, parentFromList := fromlist }
  match w.baseimport name fromlist with
  | Except.error _ => none
  | Except.ok none => none
  | Except.ok (some base) =>
    match resolveImported w st1.deps name fromlist base with
    | Except.error _ => none
    | Except.ok (m, msub) => recordedCall w globalsName st.parent st.parentFromList m msub

/-- Ghost discovery log: per parent, the chronological list (duplicates kept)
of every module name passed to the edge recorder for that parent since the
parent's graph entry was created. -/
def ghostAdd (p : String) (mods : List String) (gl : Graph) : Graph :=
  setEntry p ((lookupK p gl).getD [] ++ mods) gl

/-- Ghost transition mirroring runOp on the discovery log: an intercepted
call of the importer appends its recorded modules raw; a reload drops the
log of every entry the engine erased (entry lifecycle); disable clears
everything. -/
def ghostOp (w : World) (s : Sys) (gl : Graph) : SysOp → Graph
  | SysOp.impOp name gn fl =>
    if s.intercepted then
      match importRecorded w name gn fl
          { deps := s.deps, parent := s.parent, parentFromList := s.parentFromList } with
      | some t => ghostAdd t.1 (t.2.1 :: t.2.2) gl
      | none => gl
    else gl
  | SysOp.relOp scope fuel name =>
    match reloadAux s.blacklist w scope fuel name
        { deps := s.deps, parent := s.parent, visited := [], trace := [] } with
    | some r => gl.filter (fun q => (lookupK q.1 r.1.deps).isSome)
    | none => gl
  | SysOp.enableOp _ => gl
  | SysOp.disableOp => []

/-- Run the ghost log alongside a sequence of operations. -/
def ghostRun (w : World) : List SysOp → Sys → Graph → Graph
  | [], _, gl => gl
  | op :: rest, s, gl => ghostRun w rest (runOp w s op) (ghostOp w s gl op)

/-- The paired invariant: unique keys on both sides, and every recorded
dependency list is exactly the first-occurrence deduplication of its ghost
discovery log. -/
def sysGhostInv (s : Sys) (gl : Graph) : Prop :=
  keysNodup s.deps ∧ keysNodup gl ∧
    ∀ p, lookupK p s.deps = Option.map firstOcc (lookupK p gl)

/-- A world with no hooks, no failures, every module file-backed: the pure
traversal scenarios run against it. -/
def wTriv : World where
  baseimport := fun _ _ => Except.ok none
  modAttrs := fun _ _ => none
  sysHas := fun _ => false
  hasFile := fun _ => true
  hasHook := fun _ => false
  dict := fun _ => []
  reloadFails := fun _ => false
  hookFails := fun _ => false

/-- Graph of the chain scenario: A imports B, B imports C, all tracked. -/
def chainGraph : Graph := [("A", ["B"]), ("B", ["C"]), ("C", [])]

/-- Expected final reload state of the chain scenario. -/
def chainFinal : RSt :=
  { deps := [], parent := none, visited := ["C", "B", "A"],
    trace := [REvent.reloadPrim "C", REvent.reloadPrim "B", REvent.reloadPrim "A"] }

/-- Graph with two direct dependencies discovered in the order B then C. -/
def siblingGraph : Graph := [("A", ["B", "C"])]

/-- Expected final reload state of the sibling scenario: the list is walked
in reverse discovery order, so C is reloaded before B. -/
def siblingFinal : RSt :=
  { deps := [], parent := none, visited := ["B", "C", "A"],
    trace := [REvent.reloadPrim "C", REvent.reloadPrim "B", REvent.reloadPrim "A"] }

/-- Graph of the cycle scenario: A imports B and B imports A. -/
def cycleGraph : Graph := [("A", ["B"]), ("B", ["A"])]

/-- Expected final reload state of the cycle scenario. -/
def cycleFinal : RSt :=
  { deps := [], parent := none, visited := ["B", "A"],
    trace := [REvent.reloadPrim "B", REvent.reloadPrim "A"] }

/-- Graph of the blacklist scenario: A imports B, B imports C. -/
def blGraph : Graph := [("A", ["B"]), ("B", ["C"])]

/-- Expected final reload state with C blacklisted: C is never reloaded. -/
def blFinal : RSt :=
  { deps := [], parent := none, visited := ["B", "A"],
    trace := [REvent.reloadPrim "B", REvent.reloadPrim "A"] }

/-- World resolving the single module C, used for the edge-recording half of
the blacklist claim. -/
def wEdge : World :=
  { wTriv with
    baseimport := fun n _ =>
      if n = "C" then Except.ok (some (PyVal.module "C")) else Except.ok none }

/-- World whose base import primitive always raises. -/
def wFail : World :=
  { wTriv with baseimport := fun _ _ => Except.error ImpErr.importError }

/-- Interceptor state before the failing import: an outer import of parent p
with a saved from-list is in progress. -/
def impFailStart : ImpSt :=
  { deps := [("p", ["q0"])], parent := some "p", parentFromList := some ["q"] }

/-- Interceptor state the source actually leaves behind when the base import
raises: the context of the failed call, not the restored outer context. -/
def impFailAfter : ImpSt :=
  { deps := [("p", ["q0"])], parent := some "x", parentFromList := some ["f"] }

/-- World whose host reload primitive raises for every module. -/
def wReloadFail : World := { wTriv with reloadFails := fun _ => true }

/-- World where every module has a state-migration hook that raises. -/
def wHookFail : World :=
  { wTriv with
    hasHook := fun _ => true
    dict := fun _ => [("__builtins__", "bns")]
    hookFails := fun _ => true }

/-- State left by a failing reload of M: the reload parent marker still
holds M. -/
def c4aFinal : RSt :=
  { deps := [], parent := some "M", visited := ["M"], trace := [REvent.reloadPrim "M"] }

/-- State left by a failing hook of M: the marker still holds M. -/
def c4bFinal : RSt :=
  { deps := [], parent := some "M", visited := ["M"],
    trace := [REvent.reloadPrim "M", REvent.hookCall "M" []] }

/-- World where M has a state-migration hook and a two-entry dictionary. -/
def wHook : World :=
  { wTriv with
    hasHook := fun n => n == "M"
    dict := fun n => if n = "M" then [("__builtins__", "bns"), ("x", "1")] else [] }

/-- Expected reload result of the hook scenario. -/
def c6HookFinal : RSt :=
  { deps := [], parent := none, visited := ["M"],
    trace := [REvent.reloadPrim "M", REvent.hookCall "M" [("x", "1")]] }

/-- Expected reload result of the hook-free scenario. -/
def c6NoHookFinal : RSt :=
  { deps := [], parent := none, visited := ["N"], trace := [REvent.reloadPrim "N"] }

/-- Operation sequence of the disable counterexample: enable, an import whose
base primitive raises (leaving the saved from-list set), then disable. -/
def c7Ops : List SysOp :=
  [SysOp.enableOp none, SysOp.impOp "x" none (some ["a"]), SysOp.disableOp]

/-- World with a registered calling module, supporting a run-time import
edge. -/
def wEdgeRt : World :=
  { wEdge with sysHas := fun s => s == "caller" }

/-- Operation sequence of the graph-invariant witness: enable, then a
deferred import recorded against the registered calling module. -/
def c8Ops : List SysOp :=
  [SysOp.enableOp none, SysOp.impOp "C" (some (some "caller")) none]

/-- World where package P is file-backed but its submodule P.b is not. -/
def wSub : World :=
  { wTriv with
    baseimport := fun n _ =>
      if n = "P" then Except.ok (some (PyVal.module "P")) else Except.ok none
    sysHas := fun s => s == "P.b"
    hasFile := fun s => s == "P" }

/-- Interceptor state with a saved parent, for the submodule scenario. -/
def impSubStart : ImpSt :=
  { deps := [], parent := some "par", parentFromList := none }

/-- World resolving a module that carries no file attribute. -/
def wNoFile : World :=
  { wTriv with
    baseimport := fun n _ =>
      if n = "bmod" then Except.ok (some (PyVal.module "bmod")) else Except.ok none
    hasFile := fun _ => false }

/-- Interceptor state with a saved parent and one recorded edge. -/
def impNoFileStart : ImpSt :=
  { deps := [("p", ["z"])], parent := some "p", parentFromList := none }

/-- Graph of the scope scenario: M has the single dependency D. -/
def c10Graph : Graph := [("M", ["D"])]

/-- Expected reload result with a scope rejecting everything: D is skipped
but M itself is still reloaded. -/
def c10Final : RSt :=
  { deps := [], parent := none, visited := ["M"], trace := [REvent.reloadPrim "M"] }

theorem lookupK_mem {α : Type} (k : String) (v : α) :
    ∀ g : List (String × α), lookupK k g = some v → (k, v) ∈ g := by
  intro g
  induction g with
  | nil => intro h; simp [lookupK] at h
  | cons p rest ih =>
    intro h
    unfold lookupK at h
    by_cases hk : p.1 = k
    · rw [if_pos hk] at h
      have hv : p.2 = v := by injection h
      have hp : p = (k, v) := by
        obtain ⟨a, b⟩ := p
        simp only [Prod.mk.injEq]
        exact ⟨hk, hv⟩
      rw [← hp]
      exact List.mem_cons_self _ _
    · rw [if_neg hk] at h
      exact List.mem_cons_of_mem _ (ih h)

theorem mem_eraseKey {α : Type} (k : String) (p : String × α) :
    ∀ g : List (String × α), p ∈ eraseKey k g → p ∈ g := by
  intro g
  induction g with
  | nil => intro h; simp [eraseKey] at h
  | cons q rest ih =>
    intro h
    unfold eraseKey at h
    by_cases hk : q.1 = k
    · rw [if_pos hk] at h
      exact List.mem_cons_of_mem _ h
    · rw [if_neg hk] at h
      rcases List.mem_cons.mp h with h1 | h2
      · rw [h1]; exact List.mem_cons_self _ _
      · exact List.mem_cons_of_mem _ (ih h2)

theorem mem_setEntry {α : Type} (k : String) (v : α) (p : String × α) :
    ∀ g : List (String × α), p ∈ setEntry k v g → p = (k, v) ∨ p ∈ g := by
  intro g
  induction g with
  | nil => intro h; simp [setEntry] at h; exact Or.inl h
  | cons q rest ih =>
    intro h
    unfold setEntry at h
    by_cases hk : q.1 = k
    · rw [if_pos hk] at h
      rcases List.mem_cons.mp h with h1 | h2
      · exact Or.inl h1
      · exact Or.inr (List.mem_cons_of_mem _ h2)
    · rw [if_neg hk] at h
      rcases List.mem_cons.mp h with h1 | h2
      · exact Or.inr (h1 ▸ List.mem_cons_self _ _)
      · rcases ih h2 with h3 | h4
        · exact Or.inl h3
        · exact Or.inr (List.mem_cons_of_mem _ h4)

theorem dedupFold_nodup (xs : List String) :
    ∀ l : List String, l.Nodup →
      (List.foldl (fun l x => if x ∈ l then l else l ++ [x]) l xs).Nodup := by
  induction xs with
  | nil => intro l h; simpa using h
  | cons x xs ih =>
    intro l h
    simp only [List.foldl_cons]
    by_cases hx : x ∈ l
    · rw [if_pos hx]; exact ih l h
    · rw [if_neg hx]
      refine ih _ ?_
      simp [List.nodup_append, h, hx]

theorem graphNodup_nil : graphNodup [] := by
  intro p hp
  simp at hp

theorem graphNodup_eraseKey (k : String) (g : Graph) (h : graphNodup g) :
    graphNodup (eraseKey k g) :=
  fun p hp => h p (mem_eraseKey k p g hp)

theorem graphNodup_addDependency (parent mod : String) (subs : List String) (g : Graph)
    (h : graphNodup g) : graphNodup (addDependency parent mod subs g) := by
  intro p hp
  simp only [addDependency] at hp
  have hl0 : ((lookupK parent g).getD []).Nodup := by
    cases hl : lookupK parent g with
    | none => simp
    | some l =>
      have := h (parent, l) (lookupK_mem parent l g hl)
      simpa using this
  rcases mem_setEntry _ _ _ _ hp with h1 | h2
  · rw [h1]
    exact dedupFold_nodup _ _ hl0
  · exact h p h2

theorem reloadFinish_deps (w : World) (name : String) (st2 : RSt) (r : RSt × Option RErr)
    (h : reloadFinish w name st2 = some r) : r.1.deps = eraseKey name st2.deps := by
  unfold reloadFinish at h
  split at h
  · split at h
    · injection h with h; rw [← h]
    · split at h
      · injection h with h; rw [← h]
      · split at h
        · injection h with h; rw [← h]
        · injection h with h; rw [← h]
  · split at h
    · injection h with h; rw [← h]
    · injection h with h; rw [← h]

theorem reloadFinish_primOther (w : World) (name c : String) (st2 : RSt)
    (r : RSt × Option RErr) (hne : name ≠ c) (hc : REvent.reloadPrim c ∉ st2.trace)
    (h : reloadFinish w name st2 = some r) : REvent.reloadPrim c ∉ r.1.trace := by
  have hever : ∀ d, REvent.reloadPrim c ∉
      st2.trace ++ [REvent.reloadPrim name] ++ [REvent.hookCall name d] := by
    intro d
    simp [hc, List.mem_append, fun h' : c = name => hne h'.symm]
    intro h'
    exact hne h'.symm
  have hone : REvent.reloadPrim c ∉ st2.trace ++ [REvent.reloadPrim name] := by
    simp [hc]
    intro h'
    exact hne h'.symm
  unfold reloadFinish at h
  split at h
  · split at h
    · injection h with h; rw [← h]; exact hc
    · split at h
      · injection h with h; rw [← h]; exact hone
      · split at h
        · injection h with h; rw [← h]; exact hever _
        · injection h with h; rw [← h]; exact hever _
  · split at h
    · injection h with h; rw [← h]; exact hone
    · injection h with h; rw [← h]; exact hone

theorem reloadFinish_success_mem (w : World) (name : String) (st2 : RSt) (st' : RSt)
    (h : reloadFinish w name st2 = some (st', none)) :
    REvent.reloadPrim name ∈ st'.trace := by
  unfold reloadFinish at h
  split at h
  · split at h
    · simp at h
    · split at h
      · simp at h
      · split at h
        · simp at h
        · simp only [Option.some.injEq, Prod.mk.injEq] at h
          obtain ⟨h1, -⟩ := h
          rw [← h1]
          simp
  · split at h
    · simp at h
    · simp only [Option.some.injEq, Prod.mk.injEq] at h
      obtain ⟨h1, -⟩ := h
      rw [← h1]
      simp

theorem reloadDeps_pres (P : RSt → Prop) (scope : Option (String → Bool))
    (rec : String → RSt → Option (RSt × Option RErr))
    (hrec : ∀ d st r, rec d st = some r → P st → P r.1) :
    ∀ (l : List String) (st : RSt) (r : RSt × Option RErr),
      reloadDeps scope rec l st = some r → P st → P r.1 := by
  intro l
  induction l with
  | nil =>
    intro st r h hp
    unfold reloadDeps at h
    injection h with h
    rw [← h]
    exact hp
  | cons d rest ih =>
    intro st r h hp
    unfold reloadDeps at h
    split at h
    · exact ih st r h hp
    · split at h
      · exact ih st r h hp
      · split at h
        · cases h
        · next st' e heq =>
          injection h with h
          rw [← h]
          exact hrec d st _ heq hp
        · next st' heq =>
          exact ih st' r h (hrec d st _ heq hp)

theorem reloadDeps_mono (scope : Option (String → Bool))
    (rec rec' : String → RSt → Option (RSt × Option RErr))
    (hrec : ∀ d st r, rec d st = some r → rec' d st = some r) :
    ∀ (l : List String) (st : RSt) (r : RSt × Option RErr),
      reloadDeps scope rec l st = some r → reloadDeps scope rec' l st = some r := by
  intro l
  induction l with
  | nil => intro st r h; exact h
  | cons d rest ih =>
    intro st r h
    unfold reloadDeps at h ⊢
    split at h
    · next hv => rw [if_pos hv]; exact ih st r h
    · next hv =>
      rw [if_neg hv]
      split at h
      · next hs => rw [if_pos hs]; exact ih st r h
      · next hs =>
        rw [if_neg hs]
        split at h
        · cases h
        · next st' e heq =>
          rw [hrec d st _ heq]
          exact h
        · next st' heq =>
          rw [hrec d st _ heq]
          exact ih st' r h

theorem reloadStep_mono (bl : Option (List String)) (w : World)
    (scope : Option (String → Bool))
    (rec rec' : String → RSt → Option (RSt × Option RErr))
    (name : String) (st : RSt) (r : RSt × Option RErr)
    (hrec : ∀ d st r, rec d st = some r → rec' d st = some r)
    (h : reloadStep bl w scope rec name st = some r) :
    reloadStep bl w scope rec' name st = some r := by
  unfold reloadStep at h ⊢
  split at h
  · next hbl => rw [if_pos hbl]; exact h
  · next hbl =>
    rw [if_neg hbl]
    split at h
    · exact h
    · next ds heq =>
      split at h
      · cases h
      · next st2 e heqd =>
        rw [reloadDeps_mono scope rec rec' hrec _ _ _ heqd]
        exact h
      · next st2 heqd =>
        rw [reloadDeps_mono scope rec rec' hrec _ _ _ heqd]
        exact h

theorem reloadStep_nodup (bl : Option (List String)) (w : World)
    (scope : Option (String → Bool))
    (rec : String → RSt → Option (RSt × Option RErr))
    (name : String) (st : RSt) (r : RSt × Option RErr)
    (hrec : ∀ d st r, rec d st = some r → graphNodup st.deps → graphNodup r.1.deps)
    (h : reloadStep bl w scope rec name st = some r)
    (hst : graphNodup st.deps) : graphNodup r.1.deps := by
  unfold reloadStep at h
  split at h
  · injection h with h; rw [← h]; exact hst
  · split at h
    · next heq =>
      rw [reloadFinish_deps _ _ _ _ h]
      exact graphNodup_eraseKey _ _ hst
    · next ds heq =>
      split at h
      · cases h
      · next st2 e heqd =>
        injection h with h
        rw [← h]
        exact reloadDeps_pres (fun s => graphNodup s.deps) scope rec hrec _ _ _ heqd hst
      · next st2 heqd =>
        have hst2 : graphNodup st2.deps :=
          reloadDeps_pres (fun s => graphNodup s.deps) scope rec hrec _ _ _ heqd hst
        rw [reloadFinish_deps _ _ _ _ h]
        exact graphNodup_eraseKey _ _ hst2

theorem reloadStep_primPres (bl : Option (List String)) (w : World)
    (scope : Option (String → Bool))
    (rec : String → RSt → Option (RSt × Option RErr))
    (name c : String) (st : RSt) (r : RSt × Option RErr)
    (hblc : blacklistHit bl c = true)
    (hrec : ∀ d st r, rec d st = some r →
      REvent.reloadPrim c ∉ st.trace → REvent.reloadPrim c ∉ r.1.trace)
    (h : reloadStep bl w scope rec name st = some r)
    (hc : REvent.reloadPrim c ∉ st.trace) : REvent.reloadPrim c ∉ r.1.trace := by
  unfold reloadStep at h
  split at h
  · injection h with h; rw [← h]; exact hc
  · next hbl =>
    have hne : name ≠ c := by
      intro he
      rw [he] at hbl
      exact hbl hblc
    split at h
    · next heq =>
      exact reloadFinish_primOther w name c (visitedAdd name st) r hne hc h
    · next ds heq =>
      split at h
      · cases h
      · next st2 e heqd =>
        injection h with h
        rw [← h]
        exact reloadDeps_pres (fun s => REvent.reloadPrim c ∉ s.trace) scope rec hrec _ _ _ heqd hc
      · next st2 heqd =>
        have hc2 : REvent.reloadPrim c ∉ st2.trace :=
          reloadDeps_pres (fun s => REvent.reloadPrim c ∉ s.trace) scope rec hrec _ _ _ heqd hc
        exact reloadFinish_primOther _ _ _ _ _ hne hc2 h

theorem reloadStep_success_mem (bl : Option (List String)) (w : World)
    (scope : Option (String → Bool))
    (rec : String → RSt → Option (RSt × Option RErr))
    (name : String) (st : RSt) (st' : RSt)
    (h : reloadStep bl w scope rec name st = some (st', none))
    (hbl : blacklistHit bl name = false) : REvent.reloadPrim name ∈ st'.trace := by
  unfold reloadStep at h
  split at h
  · next hb => rw [hbl] at hb; cases hb
  · split at h
    · exact reloadFinish_success_mem _ _ _ _ h
    · next ds heq =>
      split at h
      · cases h
      · next st2 e heqd => simp at h
      · next st2 heqd => exact reloadFinish_success_mem _ _ _ _ h

theorem reloadAux_succ (bl : Option (List String)) (w : World)
    (scope : Option (String → Bool)) :
    ∀ (fuel : Nat) (name : String) (st : RSt) (r : RSt × Option RErr),
      reloadAux bl w scope fuel name st = some r →
      reloadAux bl w scope (fuel + 1) name st = some r := by
  intro fuel
  induction fuel with
  | zero =>
    intro name st r h
    exact absurd h (by simp [reloadAux])
  | succ k ih =>
    intro name st r h
    exact reloadStep_mono bl w scope _ _ name st r (fun d st r hh => ih d st r hh) h

theorem reloadAux_mono (bl : Option (List String)) (w : World)
    (scope : Option (String → Bool)) {fuel fuel' : Nat} (hle : fuel ≤ fuel') :
    ∀ (name : String) (st : RSt) (r : RSt × Option RErr),
      reloadAux bl w scope fuel name st = some r →
      reloadAux bl w scope fuel' name st = some r := by
  induction hle with
  | refl => intro name st r h; exact h
  | step h' ih =>
    intro name st r h
    exact reloadAux_succ bl w scope _ name st r (ih name st r h)

theorem reloadAux_nodup (bl : Option (List String)) (w : World)
    (scope : Option (String → Bool)) :
    ∀ (fuel : Nat) (name : String) (st : RSt) (r : RSt × Option RErr),
      reloadAux bl w scope fuel name st = some r →
      graphNodup st.deps → graphNodup r.1.deps := by
  intro fuel
  induction fuel with
  | zero =>
    intro name st r h
    exact absurd h (by simp [reloadAux])
  | succ k ih =>
    intro name st r h hst
    exact reloadStep_nodup bl w scope _ name st r (fun d st r hh => ih d st r hh) h hst

theorem reloadAux_primPres (bl : Option (List String)) (w : World)
    (scope : Option (String → Bool)) (c : String) (hblc : blacklistHit bl c = true) :
    ∀ (fuel : Nat) (name : String) (st : RSt) (r : RSt × Option RErr),
      reloadAux bl w scope fuel name st = some r →
      REvent.reloadPrim c ∉ st.trace → REvent.reloadPrim c ∉ r.1.trace := by
  intro fuel
  induction fuel with
  | zero =>
    intro name st r h
    exact absurd h (by simp [reloadAux])
  | succ k ih =>
    intro name st r h hc
    exact reloadStep_primPres bl w scope _ name c st r hblc
      (fun d st r hh => ih d st r hh) h hc

theorem recordEdge_nodup (w : World) (gn : Option (Option String)) (sp : Option String)
    (sfl : Option (List String)) (m : PyVal) (msub : List String) (g : Graph)
    (h : graphNodup g) : graphNodup (recordEdge w gn sp sfl m msub g) := by
  unfold recordEdge
  split
  · split
    · exact h
    · split
      · exact graphNodup_addDependency _ _ _ _ h
      · split
        · split
          · exact graphNodup_addDependency _ _ _ _ h
          · split
            · exact graphNodup_addDependency _ _ _ _ h
            · exact h
        · exact h
  · exact h

theorem importCall_nodup (w : World) (name : String) (gn : Option (Option String))
    (fl : Option (List String)) (st : ImpSt) (h : graphNodup st.deps) :
    graphNodup (importCall w name gn fl st).1.deps := by
  simp only [importCall]
  split
  · exact h
  · exact h
  · split
    · exact h
    · exact recordEdge_nodup _ _ _ _ _ _ _ h

theorem runOp_nodup (w : World) (s : Sys) (op : SysOp) (h : graphNodup s.deps) :
    graphNodup (runOp w s op).deps := by
  cases op with
  | impOp name gn fl =>
    simp only [runOp]
    split
    · exact importCall_nodup w name gn fl _ h
    · exact h
  | relOp scope fuel name =>
    simp only [runOp]
    split
    · next r heq => exact reloadAux_nodup _ _ _ fuel name _ r heq h
    · exact h
  | enableOp b => exact h
  | disableOp => exact graphNodup_nil

theorem runOps_nodup (w : World) :
    ∀ (ops : List SysOp) (s : Sys), graphNodup s.deps → graphNodup (runOps w s ops).deps := by
  intro ops
  induction ops with
  | nil => intro s h; exact h
  | cons op rest ih =>
    intro s h
    exact ih (runOp w s op) (runOp_nodup w s op h)

theorem lookupK_setEntry_self {α : Type} (k : String) (v : α) :
    ∀ g : List (String × α), lookupK k (setEntry k v g) = some v := by
  intro g
  induction g with
  | nil => simp [setEntry, lookupK]
  | cons q rest ih =>
    unfold setEntry
    by_cases hq : q.1 = k
    · rw [if_pos hq]
      simp [lookupK]
    · rw [if_neg hq]
      unfold lookupK
      rw [if_neg hq]
      exact ih

theorem lookupK_setEntry_other {α : Type} (k p : String) (v : α) (hp : p ≠ k) :
    ∀ g : List (String × α), lookupK p (setEntry k v g) = lookupK p g := by
  intro g
  induction g with
  | nil => simp [setEntry, lookupK, Ne.symm hp]
  | cons q rest ih =>
    unfold setEntry
    by_cases hq : q.1 = k
    · rw [if_pos hq]
      have hkp : ¬(k = p) := Ne.symm hp
      have hqp : ¬(q.1 = p) := by rw [hq]; exact hkp
      simp [lookupK, hkp, hqp]
    · rw [if_neg hq]
      by_cases hqp : q.1 = p
      · simp [lookupK, hqp]
      · simp [lookupK, hqp, ih]

theorem lookupK_eraseKey_other {α : Type} (k p : String) (hp : p ≠ k) :
    ∀ g : List (String × α), lookupK p (eraseKey k g) = lookupK p g := by
  intro g
  induction g with
  | nil => rfl
  | cons q rest ih =>
    unfold eraseKey
    by_cases hq : q.1 = k
    · rw [if_pos hq]
      have hqp : ¬(q.1 = p) := by rw [hq]; exact Ne.symm hp
      simp [lookupK, hqp]
    · rw [if_neg hq]
      by_cases hqp : q.1 = p
      · simp [lookupK, hqp]
      · simp [lookupK, hqp, ih]

theorem lookupK_none_of_not_mem {α : Type} (k : String) :
    ∀ g : List (String × α), k ∉ g.map Prod.fst → lookupK k g = none := by
  intro g
  induction g with
  | nil => intro _; rfl
  | cons q rest ih =>
    intro hmem
    unfold lookupK
    have h1 : ¬(q.1 = k) := by
      intro he
      exact hmem (by simp [← he])
    rw [if_neg h1]
    apply ih
    intro hk
    exact hmem (by simp [hk])

theorem lookupK_eraseKey_self {α : Type} (k : String) :
    ∀ g : List (String × α), keysNodup g → lookupK k (eraseKey k g) = none := by
  intro g
  induction g with
  | nil => intro _; rfl
  | cons q rest ih =>
    intro hn
    have hn' : q.1 ∉ rest.map Prod.fst ∧ keysNodup rest := by
      simpa [keysNodup, List.nodup_cons] using hn
    unfold eraseKey
    by_cases hq : q.1 = k
    · rw [if_pos hq]
      apply lookupK_none_of_not_mem
      rw [← hq]
      exact hn'.1
    · rw [if_neg hq]
      unfold lookupK
      rw [if_neg hq]
      exact ih hn'.2

theorem eraseKey_sublist {α : Type} (k : String) :
    ∀ g : List (String × α), List.Sublist (eraseKey k g) g := by
  intro g
  induction g with
  | nil => simp [eraseKey]
  | cons q rest ih =>
    unfold eraseKey
    by_cases hq : q.1 = k
    · rw [if_pos hq]
      exact List.sublist_cons_self q rest
    · rw [if_neg hq]
      exact List.Sublist.cons₂ q ih

theorem keysNodup_eraseKey {α : Type} (k : String) (g : List (String × α))
    (h : keysNodup g) : keysNodup (eraseKey k g) :=
  List.Nodup.sublist ((eraseKey_sublist k g).map Prod.fst) h

theorem mem_keys_setEntry {α : Type} (k p : String) (v : α) :
    ∀ g : List (String × α), p ∈ (setEntry k v g).map Prod.fst →
      p = k ∨ p ∈ g.map Prod.fst := by
  intro g hp
  rcases List.mem_map.mp hp with ⟨e, he, hfe⟩
  rcases mem_setEntry k v e g he with h1 | h2
  · left
    rw [← hfe, h1]
  · right
    exact List.mem_map.mpr ⟨e, h2, hfe⟩

theorem keysNodup_setEntry {α : Type} (k : String) (v : α) :
    ∀ g : List (String × α), keysNodup g → keysNodup (setEntry k v g) := by
  intro g
  induction g with
  | nil => intro _; simp [setEntry, keysNodup]
  | cons q rest ih =>
    intro hn
    have hn' : q.1 ∉ rest.map Prod.fst ∧ keysNodup rest := by
      simpa [keysNodup, List.nodup_cons] using hn
    unfold setEntry
    by_cases hq : q.1 = k
    · rw [if_pos hq]
      show keysNodup ((k, v) :: rest)
      simp only [keysNodup, List.map_cons, List.nodup_cons]
      exact ⟨by rw [← hq]; exact hn'.1, hn'.2⟩
    · rw [if_neg hq]
      show keysNodup (q :: setEntry k v rest)
      simp only [keysNodup, List.map_cons, List.nodup_cons]
      refine ⟨?_, ih hn'.2⟩
      intro hmem
      rcases mem_keys_setEntry k q.1 v rest hmem with h1 | h2
      · exact hq h1
      · exact hn'.1 h2

theorem keysNodup_filter {α : Type} (pred : String × α → Bool) (g : List (String × α))
    (h : keysNodup g) : keysNodup (g.filter pred) :=
  List.Nodup.sublist ((List.filter_sublist g).map Prod.fst) h

theorem lookupK_filterLive {α : Type} (gx : Graph) (p : String) :
    ∀ gl : List (String × α),
      lookupK p (gl.filter (fun q => (lookupK q.1 gx).isSome)) =
        if (lookupK p gx).isSome then lookupK p gl else none := by
  intro gl
  induction gl with
  | nil => cases hd : (lookupK p gx).isSome <;> simp [lookupK, hd]
  | cons q rest ih =>
    by_cases hqp : q.1 = p
    · subst hqp
      cases hq : (lookupK q.1 gx).isSome
      · simp [List.filter_cons, hq, ih, lookupK]
      · simp [List.filter_cons, hq, lookupK]
    · cases hq : (lookupK q.1 gx).isSome
      · simp [List.filter_cons, hq, ih, lookupK, hqp]
      · simp [List.filter_cons, hq, ih, lookupK, hqp]

theorem firstOcc_append (h mods : List String) :
    firstOcc (h ++ mods) =
      List.foldl (fun l x => if x ∈ l then l else l ++ [x]) (firstOcc h) mods := by
  simp only [firstOcc, List.foldl_append]

theorem dedupFold_sublist : ∀ (xs l : List String),
    List.Sublist (List.foldl (fun l x => if x ∈ l then l else l ++ [x]) l xs) (l ++ xs) := by
  intro xs
  induction xs with
  | nil => intro l; simp
  | cons x xs ih =>
    intro l
    simp only [List.foldl_cons]
    by_cases hx : x ∈ l
    · rw [if_pos hx]
      exact (ih l).trans ((List.sublist_cons_self x xs).append_left l)
    · rw [if_neg hx]
      have h2 := ih (l ++ [x])
      rw [List.append_assoc] at h2
      simpa using h2

theorem firstOcc_sublist (xs : List String) : List.Sublist (firstOcc xs) xs := by
  simpa using dedupFold_sublist xs []

theorem firstOcc_nodup (xs : List String) : (firstOcc xs).Nodup :=
  dedupFold_nodup xs [] List.nodup_nil

theorem recordEdge_char (w : World) (gn : Option (Option String)) (sp : Option String)
    (sfl : Option (List String)) (m : PyVal) (msub : List String) (g : Graph) :
    recordEdge w gn sp sfl m msub g =
      (match recordedCall w gn sp sfl m msub with
       | some t => addDependency t.1 t.2.1 t.2.2 g
       | none => g) := by
  unfold recordEdge recordedCall
  cases hf : pyHasFile w m
  · simp [hf]
  · cases hm : pyName m with
    | none => simp [hf, hm]
    | some mn =>
      cases sp with
      | some parent => simp [hf, hm]
      | none =>
        cases gn with
        | none => simp [hf, hm]
        | some g0 =>
          cases g0 with
          | none => simp [hf, hm]
          | some cm =>
            by_cases hce : cm.isEmpty = true
            · simp [hf, hm, hce]
            · by_cases hcs : w.sysHas cm = true
              · simp [hf, hm, hce, hcs]
              · simp [hf, hm, hce, hcs]

theorem importCall_deps_char (w : World) (name : String) (gn : Option (Option String))
    (fl : Option (List String)) (st : ImpSt) :
    (importCall w name gn fl st).1.deps =
      (match importRecorded w name gn fl st with
       | some t => addDependency t.1 t.2.1 t.2.2 st.deps
       | none => st.deps) := by
  unfold importCall importRecorded
  cases hb : w.baseimport name fl with
  | error e => simp [hb]
  | ok b =>
    cases b with
    | none => simp [hb]
    | some base =>
      cases hr : resolveImported w
          ({ st with parent := some name, parentFromList := fl } : ImpSt).deps
          name fl base with
      | error e => simp [hb, hr]
      | ok t =>
        obtain ⟨m, msub⟩ := t
        simp only [hb, hr]
        rw [recordEdge_char]

theorem keysNodup_addDependency (p mo : String) (su : List String) (g : Graph)
    (h : keysNodup g) : keysNodup (addDependency p mo su g) := by
  simp only [addDependency]
  exact keysNodup_setEntry _ _ _ h

theorem lookupK_addDependency_self (p mo : String) (su : List String) (g : Graph) :
    lookupK p (addDependency p mo su g) =
      some (List.foldl (fun l x => if x ∈ l then l else l ++ [x])
        ((lookupK p g).getD []) (mo :: su)) := by
  simp only [addDependency]
  exact lookupK_setEntry_self _ _ _

theorem lookupK_addDependency_other (p q mo : String) (su : List String) (g : Graph)
    (hq : q ≠ p) : lookupK q (addDependency p mo su g) = lookupK q g := by
  simp only [addDependency]
  exact lookupK_setEntry_other p q _ hq g

theorem keysNodup_ghostAdd (p : String) (mods : List String) (gl : Graph)
    (h : keysNodup gl) : keysNodup (ghostAdd p mods gl) := by
  simp only [ghostAdd]
  exact keysNodup_setEntry _ _ _ h

theorem lookupK_ghostAdd_self (p : String) (mods : List String) (gl : Graph) :
    lookupK p (ghostAdd p mods gl) = some ((lookupK p gl).getD [] ++ mods) := by
  simp only [ghostAdd]
  exact lookupK_setEntry_self _ _ _

theorem lookupK_ghostAdd_other (p q : String) (mods : List String) (gl : Graph)
    (hq : q ≠ p) : lookupK q (ghostAdd p mods gl) = lookupK q gl := by
  simp only [ghostAdd]
  exact lookupK_setEntry_other p q _ hq gl

theorem reloadStep_depsQ (Q : Graph → Prop)
    (hQ : ∀ k g, Q g → Q (eraseKey k g))
    (bl : Option (List String)) (w : World) (scope : Option (String → Bool))
    (rec : String → RSt → Option (RSt × Option RErr))
    (name : String) (st : RSt) (r : RSt × Option RErr)
    (hrec : ∀ d st r, rec d st = some r → Q st.deps → Q r.1.deps)
    (h : reloadStep bl w scope rec name st = some r)
    (hst : Q st.deps) : Q r.1.deps := by
  unfold reloadStep at h
  split at h
  · injection h with h; rw [← h]; exact hst
  · split at h
    · next heq =>
      rw [reloadFinish_deps _ _ _ _ h]
      exact hQ _ _ hst
    · next ds heq =>
      split at h
      · cases h
      · next st2 e heqd =>
        injection h with h
        rw [← h]
        exact reloadDeps_pres (fun s => Q s.deps) scope rec hrec _ _ _ heqd hst
      · next st2 heqd =>
        have hst2 : Q st2.deps :=
          reloadDeps_pres (fun s => Q s.deps) scope rec hrec _ _ _ heqd hst
        rw [reloadFinish_deps _ _ _ _ h]
        exact hQ _ _ hst2

theorem reloadAux_depsQ (Q : Graph → Prop)
    (hQ : ∀ k g, Q g → Q (eraseKey k g))
    (bl : Option (List String)) (w : World) (scope : Option (String → Bool)) :
    ∀ (fuel : Nat) (name : String) (st : RSt) (r : RSt × Option RErr),
      reloadAux bl w scope fuel name st = some r → Q st.deps → Q r.1.deps := by
  intro fuel
  induction fuel with
  | zero =>
    intro name st r h
    exact absurd h (by simp [reloadAux])
  | succ k ih =>
    intro name st r h hst
    exact reloadStep_depsQ Q hQ bl w scope _ name st r (fun d st r hh => ih d st r hh) h hst

theorem sysGhostInv_runOp (w : World) (s : Sys) (gl : Graph) (op : SysOp)
    (h : sysGhostInv s gl) : sysGhostInv (runOp w s op) (ghostOp w s gl op) := by
  obtain ⟨hk, hgk, hinv⟩ := h
  cases op with
  | impOp name gn fl =>
    simp only [runOp, ghostOp]
    by_cases hi : s.intercepted = true
    · rw [if_pos hi, if_pos hi]
      have hchar := importCall_deps_char w name gn fl
        { deps := s.deps, parent := s.parent, parentFromList := s.parentFromList }
      cases hrec : importRecorded w name gn fl
          { deps := s.deps, parent := s.parent, parentFromList := s.parentFromList } with
      | none =>
        have hd : (importCall w name gn fl
            { deps := s.deps, parent := s.parent, parentFromList := s.parentFromList }).1.deps =
            s.deps := by
          rw [hchar, hrec]
        refine ⟨?_, hgk, ?_⟩
        · rw [hd]; exact hk
        · intro p
          rw [hd]
          exact hinv p
      | some t =>
        obtain ⟨p0, mo, su⟩ := t
        have hd : (importCall w name gn fl
            { deps := s.deps, parent := s.parent, parentFromList := s.parentFromList }).1.deps =
            addDependency p0 mo su s.deps := by
          rw [hchar, hrec]
        refine ⟨?_, keysNodup_ghostAdd _ _ _ hgk, ?_⟩
        · rw [hd]
          exact keysNodup_addDependency p0 mo su s.deps hk
        · intro q
          rw [hd]
          by_cases hq : q = p0
          · subst hq
            rw [lookupK_addDependency_self, lookupK_ghostAdd_self]
            have hbase : (lookupK q s.deps).getD [] = firstOcc ((lookupK q gl).getD []) := by
              cases hg0 : lookupK q gl with
              | none =>
                have h0 := hinv q
                rw [hg0] at h0
                simp only [Option.map_none'] at h0
                rw [h0]
                rfl
              | some h0l =>
                have h0 := hinv q
                rw [hg0] at h0
                simp only [Option.map_some'] at h0
                rw [h0]
                rfl
            rw [Option.map_some', hbase, ← firstOcc_append]
          · rw [lookupK_addDependency_other p0 q mo su s.deps hq,
              lookupK_ghostAdd_other p0 q (mo :: su) gl hq]
            exact hinv q
    · rw [if_neg hi, if_neg hi]
      exact ⟨hk, hgk, hinv⟩
  | relOp scope fuel name =>
    simp only [runOp, ghostOp]
    cases hr : reloadAux s.blacklist w scope fuel name
        { deps := s.deps, parent := s.parent, visited := [], trace := [] } with
    | none => exact ⟨hk, hgk, hinv⟩
    | some r =>
      have hQer : ∀ (k : String) (g : Graph),
          (keysNodup g ∧ ∀ p, lookupK p g = lookupK p s.deps ∨ lookupK p g = none) →
          (keysNodup (eraseKey k g)
            ∧ ∀ p, lookupK p (eraseKey k g) = lookupK p s.deps
              ∨ lookupK p (eraseKey k g) = none) := by
        intro k g hg
        refine ⟨keysNodup_eraseKey k g hg.1, ?_⟩
        intro p
        by_cases hpk : p = k
        · subst hpk
          exact Or.inr (lookupK_eraseKey_self p g hg.1)
        · rw [lookupK_eraseKey_other k p hpk g]
          exact hg.2 p
      have hQ := reloadAux_depsQ
        (fun g => keysNodup g ∧ ∀ p, lookupK p g = lookupK p s.deps ∨ lookupK p g = none)
        hQer s.blacklist w scope fuel name _ r hr ⟨hk, fun p => Or.inl rfl⟩
      obtain ⟨hk', hprune⟩ := hQ
      refine ⟨hk', keysNodup_filter _ gl hgk, ?_⟩
      intro p
      rw [lookupK_filterLive r.1.deps p gl]
      rcases hprune p with hp1 | hp2
      · rw [hp1]
        cases hsp : lookupK p s.deps with
        | none => simp [hsp]
        | some l =>
          have h2 := hinv p
          rw [hsp] at h2
          simpa using h2
      · rw [hp2]
        simp
  | enableOp b => exact ⟨hk, hgk, hinv⟩
  | disableOp =>
    refine ⟨by simp [runOp, disable, keysNodup], by simp [ghostOp, keysNodup], fun p => rfl⟩

theorem sysGhostInv_runOps (w : World) :
    ∀ (ops : List SysOp) (s : Sys) (gl : Graph),
      sysGhostInv s gl → sysGhostInv (runOps w s ops) (ghostRun w ops s gl) := by
  intro ops
  induction ops with
  | nil => intro s gl h; exact h
  | cons op rest ih =>
    intro s gl h
    exact ih (runOp w s op) (ghostOp w s gl op) (sysGhostInv_runOp w s gl op h)

theorem sysGhostInv_init : sysGhostInv initSys [] := by
  refine ⟨?_, ?_, fun p => rfl⟩ <;> simp [keysNodup, initSys]

/-- C1: For the chain where A imports B and B imports C (all three tracked,
none blacklisted, no scope predicate), reload of A invokes the host reload
primitive on C first, then B, then A; and with two direct dependencies
discovered as B then C, the dependency list is walked in reverse discovery
order, so C is reloaded before B and every dependency before A itself. -/
theorem c1_chain_reload_order :
    reload none wTriv none 3 "A" chainGraph none = some (chainFinal, none)
    ∧ reload none wTriv none 2 "A" siblingGraph none = some (siblingFinal, none) :=
  ⟨by decide, by decide⟩

/-- C2: For the cyclic graph where A imports B and B imports A, reload of A
terminates with the same final state at every sufficient fuel, and within
that single call the host reload primitive runs exactly once on A and once on
B: the visited set threaded through the traversal is the cycle guard. -/
theorem c2_cycle_terminates_once_each :
    (∀ fuel : Nat,
      reload none wTriv none (fuel + 2) "A" cycleGraph none = some (cycleFinal, none))
    ∧ cycleFinal.trace.count (REvent.reloadPrim "A") = 1
    ∧ cycleFinal.trace.count (REvent.reloadPrim "B") = 1 := by
  refine ⟨?_, by decide, by decide⟩
  intro fuel
  induction fuel with
  | zero => decide
  | succ k ih =>
    exact reloadAux_succ none wTriv none (k + 2) "A"
      { deps := cycleGraph, parent := none, visited := [], trace := [] } (cycleFinal, none) ih

/-- C3: When the base import primitive raises, the exception propagates
unchanged and no dependency edge is recorded, but the outer import context is
NOT restored: the source has no try/finally around the base import call, so
both context globals keep the failed call's name and from-list, contradicting
the claim (and the source's own comment that the parent pointer is always
restored). -/
theorem c3_import_error_leaves_context :
    importCall wFail "x" (some (some "caller")) (some ["f"]) impFailStart =
      (impFailAfter, Except.error ImpErr.importError)
    ∧ impFailAfter.deps = impFailStart.deps
    ∧ impFailAfter.parent ≠ impFailStart.parent
    ∧ impFailAfter.parentFromList ≠ impFailStart.parentFromList :=
  ⟨by decide, by decide, by decide, by decide⟩

/-- C4: When the host reload primitive raises, and likewise when the
state-migration hook raises, the exception propagates but the reload parent
marker is NOT cleared: the source has no try/finally around the reload step,
so the marker keeps the module's name, contradicting the claim. -/
theorem c4_reload_error_leaves_marker :
    (reload none wReloadFail none 1 "M" [] none = some (c4aFinal, some (RErr.reloadError "M"))
      ∧ c4aFinal.parent = some "M")
    ∧ (reload none wHookFail none 1 "M" [] none = some (c4bFinal, some (RErr.hookError "M"))
      ∧ c4bFinal.parent = some "M") :=
  ⟨⟨by decide, by decide⟩, ⟨by decide, by decide⟩⟩

/-- C5: A blacklisted module name is never passed to the host reload
primitive by any reload traversal (so a subtree reachable only through it is
skipped), while blacklisting does not affect graph tracking: the interceptor
still records the edge from B to C, and in the concrete chain with C
blacklisted, reload of A invokes the primitive on B and A only. -/
theorem c5_blacklist_never_reloaded_edge_kept :
    (∀ (w : World) (scope : Option (String → Bool)) (l : List String) (c : String)
        (fuel : Nat) (name : String) (st : RSt) (r : RSt × Option RErr),
        c ∈ l → reloadAux (some l) w scope fuel name st = some r →
        REvent.reloadPrim c ∉ st.trace → REvent.reloadPrim c ∉ r.1.trace)
    ∧ (importCall wEdge "C" none none
        { deps := [], parent := some "B", parentFromList := none }).1.deps = [("B", ["C"])]
    ∧ reload (some ["C"]) wTriv none 3 "A" blGraph none = some (blFinal, none) := by
  refine ⟨?_, by decide, by decide⟩
  intro w scope l c fuel name st r hcl h hc
  have hne : l.isEmpty = false := by
    cases l with
    | nil => simp at hcl
    | cons a t => rfl
  have hhit : blacklistHit (some l) c = true := by
    simpa [blacklistHit, hne] using hcl
  exact reloadAux_primPres (some l) w scope c hhit fuel name st r h hc

theorem c5_witness : REvent.reloadPrim "C" ∉ blFinal.trace :=
  c5_blacklist_never_reloaded_edge_kept.1 wTriv none ["C"] "C" 3 "A"
    { deps := blGraph, parent := none, visited := [], trace := [] } (blFinal, none)
    (by decide) (by decide) (by decide)

/-- C6: Reloading a module with a state-migration hook captures the module
dictionary minus the builtins entry, invokes the host reload primitive, then
invokes the hook with exactly that snapshot; a module without the hook is
reloaded directly and no hook call with any snapshot occurs at all. -/
theorem c6_hook_snapshot :
    reload none wHook none 1 "M" [] none = some (c6HookFinal, none)
    ∧ c6HookFinal.trace = [REvent.reloadPrim "M",
        REvent.hookCall "M" (eraseKey "__builtins__" (wHook.dict "M"))]
    ∧ reload none wTriv none 1 "N" [] none = some (c6NoHookFinal, none)
    ∧ ∀ (n : String) (d : ModDict), REvent.hookCall n d ∉ c6NoHookFinal.trace := by
  refine ⟨by decide, by decide, by decide, ?_⟩
  intro n d
  simp [c6NoHookFinal]

theorem c6_witness : REvent.hookCall "Z" [] ∉ c6NoHookFinal.trace :=
  c6_hook_snapshot.2.2.2 "Z" []

/-- C7 counterexample: after an enable, an import whose base primitive raises
and then a disable, the saved from-list half of the import context is still
set, so disable does not wipe the whole import context as the claim
states. -/
theorem c7_counterexample : (runOps wFail initSys c7Ops).parentFromList ≠ none := by decide

/-- C7 (amended): disable restores the original import entry point and wipes
the blacklist, the whole dependency graph and the parent-name half of the
the import context, while the saved from-list half is left unchanged; afterward
get_dependencies returns the unknown sentinel for every module. -/
theorem c7_disable_wipes :
    ∀ s : Sys, (disable s).intercepted = false
      ∧ (disable s).blacklist = none
      ∧ (disable s).deps = []
      ∧ (disable s).parent = none
      ∧ (disable s).parentFromList = s.parentFromList
      ∧ ∀ name : String, get_dependencies (disable s) name = none :=
  fun s => ⟨rfl, rfl, rfl, rfl, rfl, fun _ => rfl⟩

theorem c7_witness :
    (disable initSys).blacklist = none ∧ get_dependencies (disable initSys) "A" = none :=
  ⟨(c7_disable_wipes initSys).2.1, (c7_disable_wipes initSys).2.2.2.2.2 "A"⟩

/-- C8: Starting from the initial empty graph, after every sequence of
intercepted module imports, reloads, enables and disables, every list
returned by get_dependencies is duplicate-free and equals the
first-occurrence deduplication of the chronological log of modules recorded
for that parent since its entry was created, hence is a subsequence of that
log: the entries stand in first-discovery insertion order.  The whole graph
moreover satisfies the duplicate-freeness invariant. -/
theorem c8_graph_nodup_first_discovery :
    ∀ (w : World) (ops : List SysOp),
      (∀ (p : String) (l : List String),
        get_dependencies (runOps w initSys ops) p = some l →
        l.Nodup ∧ ∃ h, lookupK p (ghostRun w ops initSys []) = some h
          ∧ l = firstOcc h ∧ List.Sublist l h)
      ∧ graphNodup (runOps w initSys ops).deps := by
  intro w ops
  have hinv := sysGhostInv_runOps w ops initSys [] sysGhostInv_init
  refine ⟨?_, runOps_nodup w ops initSys graphNodup_nil⟩
  intro p l hl
  have h3 := hinv.2.2 p
  simp only [get_dependencies] at hl
  rw [hl] at h3
  cases hg : lookupK p (ghostRun w ops initSys []) with
  | none =>
    rw [hg] at h3
    simp at h3
  | some h0 =>
    rw [hg] at h3
    simp only [Option.map_some'] at h3
    have hl0 : l = firstOcc h0 := Option.some.inj h3
    refine ⟨?_, h0, rfl, hl0, ?_⟩
    · rw [hl0]
      exact firstOcc_nodup h0
    · rw [hl0]
      exact firstOcc_sublist h0

theorem c8_witness :
    get_dependencies (runOps wEdgeRt initSys c8Ops) "caller" = some ["C"]
    ∧ (["C"] : List String).Nodup
    ∧ ∃ h, lookupK "caller" (ghostRun wEdgeRt c8Ops initSys []) = some h
        ∧ ["C"] = firstOcc h ∧ List.Sublist (["C"] : List String) h := by
  have h1 : get_dependencies (runOps wEdgeRt initSys c8Ops) "caller" = some ["C"] := by decide
  have h2 := (c8_graph_nodup_first_discovery wEdgeRt c8Ops).1 "caller" ["C"] h1
  exact ⟨h1, h2.1, h2.2⟩

/-- C9 counterexample: a from-list submodule without a file attribute is
recorded as a dependency, because the source checks the file attribute only
on the primary resolved module; this refutes the claim's clause that only
modules carrying a file attribute ever appear as recorded dependencies. -/
theorem c9_counterexample :
    lookupK "par" (importCall wSub "P" none (some ["b"]) impSubStart).1.deps =
      some ["P", "P.b"]
    ∧ wSub.hasFile "P.b" = false :=
  ⟨by decide, by decide⟩

/-- C9 (amended): when the resolved primary module lacks a file attribute, no
dependency edge at all is recorded for any parent, and the import result is
returned unchanged. -/
theorem c9_no_file_no_edge :
    ∀ (w : World) (name : String) (gn : Option (Option String)) (fl : Option (List String))
      (st : ImpSt) (base m : PyVal) (msub : List String),
      w.baseimport name fl = Except.ok (some base) →
      resolveImported w st.deps name fl base = Except.ok (m, msub) →
      pyHasFile w m = false →
      (importCall w name gn fl st).1.deps = st.deps
      ∧ (importCall w name gn fl st).2 = Except.ok (some base) := by
  intro w name gn fl st base m msub hb hr hf
  have hr' : resolveImported w
      ({ st with parent := some name, parentFromList := fl } : ImpSt).deps
      name fl base = Except.ok (m, msub) := hr
  have hres : importCall w name gn fl st =
      ({ deps := recordEdge w gn st.parent st.parentFromList m msub st.deps,
         parent := st.parent, parentFromList := st.parentFromList }, Except.ok (some base)) := by
    simp only [importCall, hb, hr']
  rw [hres]
  refine ⟨?_, rfl⟩
  show recordEdge w gn st.parent st.parentFromList m msub st.deps = st.deps
  simp [recordEdge, hf]

theorem c9_witness :
    (importCall wNoFile "bmod" none none impNoFileStart).1.deps = impNoFileStart.deps
    ∧ (importCall wNoFile "bmod" none none impNoFileStart).2 =
        Except.ok (some (PyVal.module "bmod")) :=
  c9_no_file_no_edge wNoFile "bmod" none none impNoFileStart (PyVal.module "bmod")
    (PyVal.module "bmod") [] (by decide) (by decide) (by decide)

/-- C10: The scope predicate is never applied to the root of a reload: every
successful reload of a non-blacklisted module, under any world, blacklist,
scope predicate, fuel and starting graph, invokes the host reload primitive
on the root module itself. -/
theorem c10_scope_not_applied_to_root :
    ∀ (w : World) (bl : Option (List String)) (scope : Option (String → Bool))
      (fuel : Nat) (name : String) (g : Graph) (parent : Option String) (st' : RSt),
      reload bl w scope fuel name g parent = some (st', none) →
      blacklistHit bl name = false →
      REvent.reloadPrim name ∈ st'.trace := by
  intro w bl scope fuel name g parent st' h hbl
  cases fuel with
  | zero => simp [reload, reloadAux] at h
  | succ k =>
    exact reloadStep_success_mem bl w scope (reloadAux bl w scope k) name
      { deps := g, parent := parent, visited := [], trace := [] } st' h hbl

theorem c10_witness : REvent.reloadPrim "M" ∈ c10Final.trace :=
  c10_scope_not_applied_to_root wTriv none (some (fun _ => false)) 2 "M" c10Graph none
    c10Final (by decide) (by decide)

end Reloader
